import Mathlib

/-!
Verification development for the Decision Control Plane (DCP) repository.

The repository ships a React frontend (`src/frontend`, `src/unnamed`) and the
design documentation of the backend engine (`src/docs`).  Frontend functions
(validators, sanitizer, API client error handling, i18n lookup, pagination
hook) are embedded directly from their JavaScript sources.  The backend
engine (Policy Evaluator, Gate Manager, Action Processor) has no source file
in the repository, only its documentation; those components are modelled from
the specification text, as flagged in their doc comments.

JavaScript numbers are modelled as rationals (ℚ); strings as Lean `String`;
`null`/`undefined` as `Option.none`.
-/

namespace DCP

/-! ## Policy evaluator (modelled from the spec and `src/docs/policy/dsl.md`) -/

/-- A scalar signal value: a JS number (modelled as ℚ) or a categorical string. -/
inductive Scalar where
  | num (q : ℚ)
  | str (s : String)
deriving DecidableEq, Repr

/-- A policy input value: a scalar, or a flat collection of scalars
(such as `compliance_flags`). -/
inductive Value where
  | scalar (v : Scalar)
  | coll (vs : List Scalar)
deriving DecidableEq, Repr

/-- The flat mapping of named signals fed to the policy evaluator. -/
abbrev Inputs := List (String × Value)

/-- Field lookup in the inputs mapping; `none` models a missing field. -/
def Inputs.get? (i : Inputs) (k : String) : Option Value :=
  (List.find? (fun p => p.1 == k) i).map (fun p => p.2)

/-- An operand of a DSL condition: a templated field reference such as
`{{risk_score}}` in the JSON DSL, or a literal. -/
inductive Operand where
  | field (name : String)
  | lit (v : Value)
deriving Repr

/-- Resolve an operand against the inputs; a missing field resolves to `none`. -/
def resolveOperand (inputs : Inputs) : Operand → Option Value
  | .field n => Inputs.get? inputs n
  | .lit v => some v

/-- Resolve an operand to a number, or `none` when missing or non-numeric. -/
def resolveNum (inputs : Inputs) (o : Operand) : Option ℚ :=
  match resolveOperand inputs o with
  | some (.scalar (.num q)) => some q
  | _ => none

/-- Resolve an operand to a scalar, or `none` when missing or a collection. -/
def resolveScalar (inputs : Inputs) (o : Operand) : Option Scalar :=
  match resolveOperand inputs o with
  | some (.scalar s) => some s
  | _ => none

/-- Resolve an operand to a collection, or `none` when missing or scalar. -/
def resolveColl (inputs : Inputs) (o : Operand) : Option (List Scalar) :=
  match resolveOperand inputs o with
  | some (.coll vs) => some vs
  | _ => none

/-- A DSL predicate tree: `all`/`any` combinators over comparators
`gt`/`gte`/`lt`/`lte`/`eq`/`neq` and the membership test `includes`. -/
inductive Cond where
  | all (cs : List Cond)
  | any (cs : List Cond)
  | gt (a b : Operand)
  | gte (a b : Operand)
  | lt (a b : Operand)
  | lte (a b : Operand)
  | eq (a b : Operand)
  | neq (a b : Operand)
  | includes (coll item : Operand)
deriving Repr

/-- Numeric comparison: false when either side is missing or non-numeric
(spec: "missing input fields evaluate any comparator referencing them as
false (never raise)"). -/
def numCmp (inputs : Inputs) (a b : Operand) (f : ℚ → ℚ → Bool) : Bool :=
  match resolveNum inputs a, resolveNum inputs b with
  | some x, some y => f x y
  | _, _ => false

mutual

/-- Modelled from the spec: recursive evaluation of a DSL predicate tree
against the inputs mapping.  Missing fields make any comparator false, and
`includes` against a missing collection is false. -/
def evalCond (inputs : Inputs) : Cond → Bool
  | .all cs => evalCondAll inputs cs
  | .any cs => evalCondAny inputs cs
  | .gt a b => numCmp inputs a b (fun x y => decide (x > y))
  | .gte a b => numCmp inputs a b (fun x y => decide (x ≥ y))
  | .lt a b => numCmp inputs a b (fun x y => decide (x < y))
  | .lte a b => numCmp inputs a b (fun x y => decide (x ≤ y))
  | .eq a b =>
      match resolveScalar inputs a, resolveScalar inputs b with
      | some x, some y => x == y
      | _, _ => false
  | .neq a b =>
      match resolveScalar inputs a, resolveScalar inputs b with
      | some x, some y => !(x == y)
      | _, _ => false
  | .includes c i =>
      match resolveColl inputs c, resolveScalar inputs i with
      | some vs, some x => vs.contains x
      | _, _ => false

/-- Conjunction over a list of conditions (the `all` combinator). -/
def evalCondAll (inputs : Inputs) : List Cond → Bool
  | [] => true
  | c :: cs => evalCond inputs c && evalCondAll inputs cs

/-- Disjunction over a list of conditions (the `any` combinator). -/
def evalCondAny (inputs : Inputs) : List Cond → Bool
  | [] => false
  | c :: cs => evalCond inputs c || evalCondAny inputs cs

end

/-- Policy outcome vocabulary. -/
inductive PolicyResult where
  | auto_approve
  | require_human
  | force_escalation
deriving DecidableEq, Repr

/-- The `then` clause of a rule: a result plus an optional reason string. -/
structure RuleThen where
  result : PolicyResult
  reason : Option String
deriving DecidableEq, Repr

/-- A policy rule: id, optional description, a `when` predicate tree and a
`then` clause (named `thenClause` because `then` is a Lean keyword). -/
structure Rule where
  id : String
  description : Option String
  «when» : Cond
  thenClause : RuleThen
deriving Repr

/-- An ordered ruleset with its mandatory configured default result. -/
structure Ruleset where
  version : String
  rules : List Rule
  default : RuleThen
deriving Repr

/-- Modelled from the spec: evaluate rules strictly in list order; the first
rule whose predicate is true wins and no further rule is evaluated; if no
rule matches the configured default applies.  Returns the winning `then`
clause together with the trace of rules evaluated. -/
def evalRulesFrom (inputs : Inputs) (dflt : RuleThen) : List Rule → RuleThen × List Rule
  | [] => (dflt, [])
  | r :: rest =>
    if evalCond inputs r.when then
      (r.thenClause, [r])
    else
      let p := evalRulesFrom inputs dflt rest
      (p.1, r :: p.2)

/-- Modelled from the spec: `evaluate(inputs, ruleset) -> (result, trace)`.
A pure function of its arguments. -/
def evaluate (inputs : Inputs) (rs : Ruleset) : RuleThen × List Rule :=
  evalRulesFrom inputs rs.default rs.rules

/-- Helper characterisation of `evalRulesFrom` by `find?` and `takeWhile`. -/
theorem evalRulesFrom_spec (inputs : Inputs) (dflt : RuleThen) (l : List Rule) :
    (∀ r, l.find? (fun x => evalCond inputs x.when) = some r →
        (evalRulesFrom inputs dflt l).1 = r.thenClause) ∧
    (l.find? (fun x => evalCond inputs x.when) = none →
        (evalRulesFrom inputs dflt l).1 = dflt) ∧
    (evalRulesFrom inputs dflt l).2 =
      l.takeWhile (fun x => !evalCond inputs x.when) ++
        (l.find? (fun x => evalCond inputs x.when)).toList := by
  induction l with
  | nil => simp [evalRulesFrom]
  | cons r rest ih =>
    by_cases h : evalCond inputs r.when
    · have hfind : List.find? (fun x => evalCond inputs x.when) (r :: rest) = some r := by
        simp [List.find?_cons, h]
      have htake :
          List.takeWhile (fun x => !evalCond inputs x.when) (r :: rest) = [] := by
        simp [List.takeWhile_cons, h]
      refine ⟨?_, ?_, ?_⟩
      · intro r' hr'
        rw [hfind] at hr'
        cases hr'
        simp [evalRulesFrom, h]
      · intro hnone
        rw [hfind] at hnone
        cases hnone
      · rw [hfind, htake]
        simp [evalRulesFrom, h]
    · have hfind : List.find? (fun x => evalCond inputs x.when) (r :: rest)
          = List.find? (fun x => evalCond inputs x.when) rest := by
        simp [List.find?_cons, h]
      have htake : List.takeWhile (fun x => !evalCond inputs x.when) (r :: rest)
          = r :: List.takeWhile (fun x => !evalCond inputs x.when) rest := by
        simp [List.takeWhile_cons, h]
      refine ⟨?_, ?_, ?_⟩
      · intro r' hr'
        rw [hfind] at hr'
        have := ih.1 r' hr'
        simpa [evalRulesFrom, h] using this
      · intro hnone
        rw [hfind] at hnone
        have := ih.2.1 hnone
        simpa [evalRulesFrom, h] using this
      · have := ih.2.2
        rw [hfind, htake]
        simp only [evalRulesFrom, if_neg h]
        simpa using this

/-- Claim C3: for every inputs mapping and every ruleset, `evaluate` returns
the `then` result of the first rule (in list order) whose predicate is true,
or the configured default when no rule matches, and the returned trace lists
exactly the rules evaluated up to and including that first matching rule and
no rule after it (all rules when none matches). -/
theorem evaluate_first_match_wins (inputs : Inputs) (rs : Ruleset) :
    (∀ r, rs.rules.find? (fun x => evalCond inputs x.when) = some r →
        (evaluate inputs rs).1 = r.thenClause) ∧
    (rs.rules.find? (fun x => evalCond inputs x.when) = none →
        (evaluate inputs rs).1 = rs.default) ∧
    (evaluate inputs rs).2 =
      rs.rules.takeWhile (fun x => !evalCond inputs x.when) ++
        (rs.rules.find? (fun x => evalCond inputs x.when)).toList :=
  evalRulesFrom_spec inputs rs.default rs.rules

/-- Concrete inputs for the evaluation witness: high risk, zero confidence. -/
def inputsW : Inputs :=
  [("risk_score", .scalar (.num 2)), ("confidence_score", .scalar (.num 0))]

/-- First rule of the witness ruleset: escalate when risk_score ≥ 1. -/
def ruleRiskHigh : Rule :=
  ⟨"risk-high", some "Escalate when risk is high",
    .gte (.field "risk_score") (.lit (.scalar (.num 1))),
    ⟨.force_escalation, some "High risk"⟩⟩

/-- Second rule of the witness ruleset: require human when cost > 1000. -/
def ruleCost : Rule :=
  ⟨"cost-guardrail", none,
    .gt (.field "estimated_cost") (.lit (.scalar (.num 1000))),
    ⟨.require_human, some "High cost"⟩⟩

/-- Witness ruleset with a configured default. -/
def rsW : Ruleset :=
  ⟨"2.0.0", [ruleRiskHigh, ruleCost], ⟨.require_human, some "No rule matched"⟩⟩

/-- Witness for claim C3: on the concrete ruleset the first matching rule is
`risk-high` and `evaluate` returns its `then` clause. -/
theorem evaluate_first_match_wins_witness :
    (evaluate inputsW rsW).1 = ruleRiskHigh.thenClause :=
  (evaluate_first_match_wins inputsW rsW).1 ruleRiskHigh (by rfl)

/-! ## Decision lifecycle (modelled from the spec and `src/docs/domain/data-model.md`) -/

/-- Decision status enum, from `src/docs/domain/data-model.md`. -/
inductive Status where
  | created
  | pending_human_review
  | approved
  | rejected
  | modified
  | escalated
  | expired
  | executed
deriving DecidableEq, Repr

/-- Terminal statuses per the spec FSM: approved, rejected, modified,
escalated, expired are terminal absorbing; executed is the final terminal
state. -/
def Status.isTerminal : Status → Bool
  | .approved => true
  | .rejected => true
  | .modified => true
  | .escalated => true
  | .expired => true
  | .executed => true
  | _ => false

/-- A decision is active when its status is non-terminal. -/
def Status.isActive (s : Status) : Bool := !s.isTerminal

/-- Action type enum. -/
inductive ActionType where
  | approve
  | reject
  | modify
  | escalate
deriving DecidableEq, Repr

/-- Actor type enum. -/
inductive ActorType where
  | human
  | system
  | policy
deriving DecidableEq, Repr

/-- The status an accepted action moves a pending decision to. -/
def ActionType.targetStatus : ActionType → Status
  | .approve => .approved
  | .reject => .rejected
  | .modify => .modified
  | .escalate => .escalated

/-- An appended action row (`decision_action`). -/
structure ActionRec where
  action_type : ActionType
  actor_type : ActorType
  actor_id : Option String
  comment : Option String
deriving DecidableEq, Repr

/-- The decision root aggregate. -/
structure Decision where
  decision_id : Nat
  execution_id : String
  flow_id : String
  node_id : String
  language : String
  status : Status
  actions : List ActionRec
  expires_at : Option Nat
deriving DecidableEq, Repr

/-- The immutable recommendation written once at creation. -/
structure Recommendation where
  summary : String
  model_used : String
  prompt_version : String
deriving DecidableEq, Repr

/-- The immutable policy snapshot written at creation. -/
structure Snapshot where
  decision_id : Nat
  policy_version : String
  evaluated_rules : List String
  result : PolicyResult
deriving DecidableEq, Repr

/-- Outbound event vocabulary. -/
inductive EventType where
  | paused
  | actioned
  | expired
  | resumed
deriving DecidableEq, Repr

/-- An enqueued outbound event. -/
structure Event where
  etype : EventType
  decision_id : Nat
deriving DecidableEq, Repr

/-- The durable store: decisions, the 1:1 recommendation and policy snapshot
tables, the outbox of enqueued events, and the id generator. -/
structure Store where
  decisions : List Decision
  recommendations : List (Nat × Recommendation)
  snapshots : List Snapshot
  events : List Event
  nextId : Nat
deriving Repr

/-- Modelled from the spec: lookup of the active (non-terminal) decision for
a correlation key `(execution_id, node_id)`, backing idempotent creation. -/
def findActiveDecision (st : Store) (execId nodeId : String) : Option Decision :=
  st.decisions.find?
    (fun d => d.execution_id == execId && d.node_id == nodeId && d.status.isActive)

/-- A gate creation request (`createGate(request)`), §4.2 of the spec. -/
structure GateRequest where
  execution_id : String
  flow_id : String
  node_id : String
  language : String
  inputs : Inputs
  recommendation : Recommendation
  sla : Option Nat
deriving Repr

/-- Modelled from the spec (Gate Manager, §4.2 — no backend source is in the
repository): if an active decision exists for `(execution_id, node_id)`,
return it with the store unchanged; otherwise evaluate the policy once and
persist the decision, its recommendation, its policy snapshot and exactly
one outbound event (paused for `require_human`, actioned for the
auto-resolved outcomes), in one commit. -/
def createGate (rs : Ruleset) (now : Nat) (st : Store) (req : GateRequest) :
    Decision × Store :=
  match findActiveDecision st req.execution_id req.node_id with
  | some d => (d, st)
  | none =>
    let ev := evaluate req.inputs rs
    let id := st.nextId
    let base : Decision :=
      { decision_id := id
        execution_id := req.execution_id
        flow_id := req.flow_id
        node_id := req.node_id
        language := req.language
        status := .pending_human_review
        actions := []
        expires_at := req.sla.map (fun dur => now + dur) }
    let d : Decision :=
      match ev.1.result with
      | .require_human => base
      | .auto_approve =>
          { base with
            status := .approved
            actions := [⟨.approve, .policy, none, ev.1.reason⟩]
            expires_at := none }
      | .force_escalation =>
          { base with
            status := .escalated
            actions := [⟨.escalate, .system, none, ev.1.reason⟩]
            expires_at := none }
    let e : Event :=
      { etype :=
          match ev.1.result with
          | .require_human => .paused
          | _ => .actioned
        decision_id := id }
    (d, { decisions := st.decisions ++ [d]
          recommendations := st.recommendations ++ [(id, req.recommendation)]
          snapshots := st.snapshots ++ [⟨id, rs.version, ev.2.map (fun r => r.id), ev.1.result⟩]
          events := st.events ++ [e]
          nextId := id + 1 })

/-- Claim C1: gate creation is idempotent on the correlation key.  If an
active (non-terminal) decision exists for `(execution_id, node_id)`,
`createGate` returns it with the store unchanged (same `decision_id`, no
second snapshot or recommendation, no additional event); consequently a
second call with the same key, while the created decision is still active,
returns the same decision and changes nothing; and a fresh creation
enqueues exactly one event, one snapshot and one recommendation. -/
theorem createGate_idempotent (rs : Ruleset) (now : Nat) (st : Store) (req : GateRequest) :
    (∀ d, findActiveDecision st req.execution_id req.node_id = some d →
        createGate rs now st req = (d, st)) ∧
    (∀ d st', createGate rs now st req = (d, st') →
        d.status.isActive = true →
        createGate rs now st' req = (d, st')) ∧
    (findActiveDecision st req.execution_id req.node_id = none →
        (createGate rs now st req).2.events.length = st.events.length + 1 ∧
        (createGate rs now st req).2.snapshots.length = st.snapshots.length + 1 ∧
        (createGate rs now st req).2.recommendations.length
          = st.recommendations.length + 1) := by
  refine ⟨?_, ?_, ?_⟩
  · intro d h
    simp [createGate, h]
  · intro d st' heq hact
    cases hfind : findActiveDecision st req.execution_id req.node_id with
    | some d0 =>
      rw [createGate] at heq
      rw [hfind] at heq
      cases heq
      simp [createGate, hfind]
    | none =>
      cases hres : (evaluate req.inputs rs).1.result with
      | require_human =>
        simp only [createGate, hfind, hres] at heq
        obtain ⟨hd, hst⟩ := Prod.mk.injEq .. ▸ heq
        have hfind' : findActiveDecision st' req.execution_id req.node_id = some d := by
          subst hd
          subst hst
          unfold findActiveDecision at hfind ⊢
          simp only [List.find?_append, hfind, Option.none_or]
          simp [Status.isActive, Status.isTerminal]
        simp [createGate, hfind']
      | auto_approve =>
        simp only [createGate, hfind, hres] at heq
        obtain ⟨hd, hst⟩ := Prod.mk.injEq .. ▸ heq
        subst hd
        simp [Status.isActive, Status.isTerminal] at hact
      | force_escalation =>
        simp only [createGate, hfind, hres] at heq
        obtain ⟨hd, hst⟩ := Prod.mk.injEq .. ▸ heq
        subst hd
        simp [Status.isActive, Status.isTerminal] at hact
  · intro h
    simp [createGate, h]

/-- The empty store. -/
def st0 : Store := ⟨[], [], [], [], 0⟩

/-- A concrete gate-creation request for the witnesses. -/
def reqW : GateRequest :=
  ⟨"exec-1", "sample-flow", "checkpoint-1", "en", [],
    ⟨"Sample recommendation", "demo-model", "v0"⟩, some 30⟩

/-- Witness for claim C1: creating the same gate twice on the empty store
with a ruleset that routes it to human review returns the same decision and
leaves the store of the first call untouched. -/
theorem createGate_idempotent_witness :
    createGate rsW 0 (createGate rsW 0 st0 reqW).2 reqW
      = ((createGate rsW 0 st0 reqW).1, (createGate rsW 0 st0 reqW).2) :=
  (createGate_idempotent rsW 0 st0 reqW).2.1
    (createGate rsW 0 st0 reqW).1 (createGate rsW 0 st0 reqW).2 rfl (by rfl)

/-! ## Action processor (modelled from the spec, §4.3) -/

/-- Errors of the action processor.  A conflict carries the decision's
current status so the caller can reconcile. -/
inductive ActionError where
  | notFound
  | conflict (current : Status)
deriving DecidableEq, Repr

/-- An inbound action request. -/
structure ActionRequest where
  action_type : ActionType
  actor_type : ActorType
  actor_id : Option String
  comment : Option String
deriving Repr

/-- Decision lookup by `decision_id`. -/
def findDecision (st : Store) (id : Nat) : Option Decision :=
  st.decisions.find? (fun d => d.decision_id == id)

/-- Modelled from the spec (Action Processor, §4.3 — no backend source is in
the repository): an action is accepted only while the decision is in
`pending_human_review`; the accepted action appends an action row, moves the
status to the action's target status and enqueues one actioned event in the
same commit; any other status yields a conflict error and no state change. -/
def processAction (st : Store) (id : Nat) (a : ActionRequest) :
    Store × Except ActionError Decision :=
  match findDecision st id with
  | none => (st, .error .notFound)
  | some d =>
    if d.status = .pending_human_review then
      let d' : Decision :=
        { d with
          status := a.action_type.targetStatus
          actions := d.actions ++ [⟨a.action_type, a.actor_type, a.actor_id, a.comment⟩] }
      ({ st with
          decisions := st.decisions.map (fun x => if x.decision_id == id then d' else x)
          events := st.events ++ [⟨.actioned, id⟩] }, .ok d')
    else (st, .error (.conflict d.status))

/-- Helper: replacing the found element by one with the same id is found. -/
theorem find?_map_update (l : List Decision) (id : Nat) (d d' : Decision)
    (hid : d'.decision_id = d.decision_id) :
    l.find? (fun x => x.decision_id == id) = some d →
    (l.map (fun x => if x.decision_id == id then d' else x)).find?
      (fun x => x.decision_id == id) = some d' := by
  induction l with
  | nil =>
    intro h
    simp at h
  | cons y t ih =>
    intro h
    by_cases hy : (y.decision_id == id) = true
    · have hyd : y = d := by
        simpa [List.find?_cons, hy] using h
      have hd' : (d'.decision_id == id) = true := by
        rw [beq_iff_eq] at hy ⊢
        rw [hid, ← hyd]
        exact hy
      have hhead : (if (y.decision_id == id) = true then d' else y) = d' := by
        simp [hy]
      simp only [List.map_cons, List.find?_cons, hhead]
      simp only [hd']
    · have ht : t.find? (fun x => x.decision_id == id) = some d := by
        simpa [List.find?_cons, hy] using h
      have hyb : (y.decision_id == id) = false := by
        simpa using hy
      have hhead : (if (y.decision_id == id) = true then d' else y) = y := by
        simp [hyb]
      simp only [List.map_cons, List.find?_cons, hhead]
      simp only [hyb]
      exact ih ht

/-- Claim C2: an approve/reject/modify/escalate action is accepted only
while the decision is in `pending_human_review`, and an accepted action
moves the status to approved/rejected/modified/escalated respectively,
appending the action row and one actioned event; an action against a
decision in any other status is rejected with a conflict error and leaves
the store (hence the decision's status and action list) unchanged, so the
terminal states are absorbing under actions. -/
theorem processAction_state_machine (st : Store) (id : Nat) (a : ActionRequest)
    (d : Decision) (hfind : findDecision st id = some d) :
    (d.status = .pending_human_review →
      ∃ d', (processAction st id a).2 = .ok d' ∧
        d'.status = (match a.action_type with
          | .approve => Status.approved
          | .reject => Status.rejected
          | .modify => Status.modified
          | .escalate => Status.escalated) ∧
        d'.actions = d.actions
          ++ [⟨a.action_type, a.actor_type, a.actor_id, a.comment⟩] ∧
        findDecision (processAction st id a).1 id = some d' ∧
        (processAction st id a).1.events = st.events ++ [⟨.actioned, id⟩]) ∧
    (d.status ≠ .pending_human_review →
      processAction st id a = (st, .error (.conflict d.status))) := by
  constructor
  · intro hp
    refine ⟨{ d with
        status := a.action_type.targetStatus
        actions := d.actions
          ++ [⟨a.action_type, a.actor_type, a.actor_id, a.comment⟩] },
      ?_, ?_, ?_, ?_, ?_⟩
    · simp [processAction, hfind, hp]
    · cases a.action_type <;> rfl
    · rfl
    · simp only [processAction, hfind, if_pos hp]
      unfold findDecision at hfind ⊢
      exact find?_map_update st.decisions id d _ rfl hfind
    · simp [processAction, hfind, hp]
  · intro hnp
    simp [processAction, hfind, hnp]

/-- A concrete pending decision for the action witness. -/
def dPending : Decision :=
  ⟨7, "exec-9", "sample-flow", "checkpoint-1", "en", .pending_human_review, [], none⟩

/-- A store holding the pending decision. -/
def stPend : Store := ⟨[dPending], [], [], [], 8⟩

/-- A concrete approve action by a human. -/
def reqApprove : ActionRequest := ⟨.approve, .human, some "user-42", some "ok"⟩

/-- Witness for claim C2: approving the concrete pending decision is
accepted, yields status `approved`, appends the action row and one actioned
event. -/
theorem processAction_state_machine_witness :
    ∃ d', (processAction stPend 7 reqApprove).2 = .ok d' ∧
      d'.status = (match reqApprove.action_type with
        | .approve => Status.approved
        | .reject => Status.rejected
        | .modify => Status.modified
        | .escalate => Status.escalated) ∧
      d'.actions = dPending.actions
        ++ [⟨reqApprove.action_type, reqApprove.actor_type,
              reqApprove.actor_id, reqApprove.comment⟩] ∧
      findDecision (processAction stPend 7 reqApprove).1 7 = some d' ∧
      (processAction stPend 7 reqApprove).1.events
        = stPend.events ++ [⟨.actioned, 7⟩] :=
  (processAction_state_machine stPend 7 reqApprove dPending (by rfl)).1 (by rfl)

/-! ## Frontend validation utilities
(from `src/frontend/src/components/DecisionCard.jsx`) -/

/-- The character class removed by the JS `String.prototype.trim`: ASCII
whitespace and line terminators plus NBSP, BOM and the Unicode line and
paragraph separators. -/
def isJsWhitespace (c : Char) : Bool :=
  c = ' ' || c = '\t' || c = '\n' || c = '\r' ||
  c = Char.ofNat 11 || c = Char.ofNat 12 ||
  c = Char.ofNat 160 || c = Char.ofNat 65279 ||
  c = Char.ofNat 8232 || c = Char.ofNat 8233

/-- Character-list form of JS `trim`: drop whitespace from both ends. -/
def trimChars (l : List Char) : List Char :=
  ((l.dropWhile isJsWhitespace).reverse.dropWhile isJsWhitespace).reverse

/-- JS `s.trim()`. -/
def jsTrim (s : String) : String := ⟨trimChars s.toList⟩

/-- JS `\w`: ASCII letters, digits and underscore. -/
def isWordChar (c : Char) : Bool := c.isAlpha || c.isDigit || c = '_'

/-- A character admitted by the id character class `[\w\-\.]`. -/
def isIdChar (c : Char) : Bool := isWordChar c || c = '-' || c = '.'

/-- The regex test `/^[\w\-\.]+$/.test s`: at least one character, all of
them from the id character class. -/
def matchesIdPattern (s : String) : Bool :=
  !s.toList.isEmpty && s.toList.all isIdChar

/-- `validateComment` from DecisionCard.jsx: a missing or empty comment is
valid (optional field); an overlong comment yields an error message. -/
def validateComment (comment : Option String) (maxLength : Nat) : Option String :=
  match comment with
  | none => none
  | some c =>
    if c = "" then none
    else if maxLength < c.length then
      some ("Comment is too long (max " ++ toString maxLength ++ " characters)")
    else none

/-- `validateFlowId` from DecisionCard.jsx. -/
def validateFlowId (flowId : Option String) : Option String :=
  match flowId with
  | none => some "Flow ID is required"
  | some s =>
    if s = "" ∨ jsTrim s = "" then some "Flow ID is required"
    else if 255 < s.length then some "Flow ID is too long (max 255 characters)"
    else if !matchesIdPattern s then some "Flow ID contains invalid characters"
    else none

/-- `validateNodeId` from DecisionCard.jsx. -/
def validateNodeId (nodeId : Option String) : Option String :=
  match nodeId with
  | none => some "Node ID is required"
  | some s =>
    if s = "" ∨ jsTrim s = "" then some "Node ID is required"
    else if 255 < s.length then some "Node ID is too long (max 255 characters)"
    else if !matchesIdPattern s then some "Node ID contains invalid characters"
    else none

/-- A JS number as the validators see it after `parseFloat`: NaN or a
finite value (modelled as ℚ; the validators only perform order
comparisons, for which this is faithful on finite values). -/
inductive JsNum where
  | nan
  | num (q : ℚ)
deriving DecidableEq, Repr

/-- `validateScore` from DecisionCard.jsx: absent values (`null`,
`undefined`, `""`) are valid (optional field); NaN is an error; otherwise
the score must lie in [0, 1]. -/
def validateScore (score : Option JsNum) (fieldName : String) : Option String :=
  match score with
  | none => none
  | some .nan => some (fieldName ++ " must be a number")
  | some (.num q) =>
    if q < 0 ∨ 1 < q then some (fieldName ++ " must be between 0 and 1")
    else none

/-- `validateCost` from DecisionCard.jsx: absent values are valid; NaN is
an error; negative cost is an error. -/
def validateCost (cost : Option JsNum) : Option String :=
  match cost with
  | none => none
  | some .nan => some "Cost must be a number"
  | some (.num q) =>
    if q < 0 then some "Cost cannot be negative" else none

/-- The fields of the decision form validated by `validateDecisionForm`. -/
structure DecisionForm where
  flow_id : Option String
  node_id : Option String
  risk_score : Option JsNum
  confidence_score : Option JsNum
  estimated_cost : Option JsNum

/-- The per-field error object built by `validateDecisionForm`. -/
structure FormErrors where
  flow_id : Option String
  node_id : Option String
  risk_score : Option String
  confidence_score : Option String
  estimated_cost : Option String
deriving DecidableEq, Repr

/-- `validateDecisionForm` from DecisionCard.jsx: validate every field and
collect the error messages per field. -/
def validateDecisionForm (form : DecisionForm) : FormErrors :=
  { flow_id := validateFlowId form.flow_id
    node_id := validateNodeId form.node_id
    risk_score := validateScore form.risk_score "Risk score"
    confidence_score := validateScore form.confidence_score "Confidence score"
    estimated_cost := validateCost form.estimated_cost }

/-- A form passes validation when no field has an error. -/
def FormErrors.clean (e : FormErrors) : Bool :=
  e.flow_id.isNone && e.node_id.isNone && e.risk_score.isNone &&
    e.confidence_score.isNone && e.estimated_cost.isNone

/-- `sanitizeInput` from DecisionCard.jsx: `null`/`undefined`/empty input
maps to `""`; otherwise slice to `maxLength`, remove the characters `<` and
`>`, then trim. -/
def sanitizeInput (input : Option String) (maxLength : Nat) : String :=
  match input with
  | none => ""
  | some s =>
    if s = "" then ""
    else jsTrim ⟨(s.toList.take maxLength).filter (fun c => !(c = '<' || c = '>'))⟩

/-- Helper: the head of `dropWhile p` never satisfies `p`. -/
theorem head?_dropWhile_false (p : Char → Bool) (l : List Char) :
    ∀ c, (l.dropWhile p).head? = some c → p c = false := by
  induction l with
  | nil =>
    intro c h
    simp at h
  | cons a t ih =>
    intro c h
    rw [List.dropWhile_cons] at h
    by_cases ha : p a = true
    · rw [if_pos ha] at h
      exact ih c h
    · rw [if_neg ha] at h
      simp only [List.head?_cons, Option.some.injEq] at h
      rw [← h]
      exact Bool.eq_false_iff.mpr ha

/-- Helper: every character of the trimmed list comes from the original. -/
theorem mem_trimChars {c : Char} {l : List Char} (h : c ∈ trimChars l) : c ∈ l := by
  unfold trimChars at h
  rw [List.mem_reverse] at h
  have h2 : c ∈ (l.dropWhile isJsWhitespace).reverse :=
    (List.dropWhile_sublist _).subset h
  rw [List.mem_reverse] at h2
  exact (List.dropWhile_sublist _).subset h2

/-- Helper: trimming never lengthens the list. -/
theorem trimChars_length_le (l : List Char) : (trimChars l).length ≤ l.length := by
  unfold trimChars
  rw [List.length_reverse]
  calc ((l.dropWhile isJsWhitespace).reverse.dropWhile isJsWhitespace).length
      ≤ (l.dropWhile isJsWhitespace).reverse.length :=
        (List.dropWhile_sublist _).length_le
    _ = (l.dropWhile isJsWhitespace).length := List.length_reverse _
    _ ≤ l.length := (List.dropWhile_sublist _).length_le

/-- Helper: the first character of the trimmed list is not whitespace. -/
theorem trimChars_head (l : List Char) :
    ∀ c, (trimChars l).head? = some c → isJsWhitespace c = false := by
  intro c h
  unfold trimChars at h
  rw [List.head?_reverse] at h
  set A := l.dropWhile isJsWhitespace with hA
  set B := A.reverse.dropWhile isJsWhitespace with hB
  have hBne : B ≠ [] := by
    intro hnil
    rw [hnil] at h
    simp at h
  obtain ⟨ts, hts⟩ := List.dropWhile_suffix (l := A.reverse) isJsWhitespace
  have hlast : B.getLast? = A.reverse.getLast? := by
    rw [← hts]
    exact (List.getLast?_append_of_ne_nil ts hBne).symm
  rw [hlast, List.getLast?_reverse] at h
  exact head?_dropWhile_false isJsWhitespace l c h

/-- Helper: the last character of the trimmed list is not whitespace. -/
theorem trimChars_last (l : List Char) :
    ∀ c, (trimChars l).getLast? = some c → isJsWhitespace c = false := by
  intro c h
  unfold trimChars at h
  rw [List.getLast?_reverse] at h
  exact head?_dropWhile_false isJsWhitespace _ c h

/-- Helper: character-level properties of `sanitizeInput` on a present
string — no angle brackets survive and both ends are non-whitespace. -/
theorem sanitize_chars_ok (s : String) (maxLen : Nat) :
    (∀ ch, ch ∈ (sanitizeInput (some s) maxLen).toList → ch ≠ '<' ∧ ch ≠ '>') ∧
    (∀ ch, (sanitizeInput (some s) maxLen).toList.head? = some ch →
        isJsWhitespace ch = false) ∧
    (∀ ch, (sanitizeInput (some s) maxLen).toList.getLast? = some ch →
        isJsWhitespace ch = false) := by
  by_cases hs : s = ""
  · subst hs
    refine ⟨?_, ?_, ?_⟩ <;> intro ch h <;> simp [sanitizeInput] at h
  · have hrw : sanitizeInput (some s) maxLen
        = jsTrim ⟨(s.toList.take maxLen).filter (fun c => !(c = '<' || c = '>'))⟩ := by
      simp [sanitizeInput, hs]
    refine ⟨?_, ?_, ?_⟩
    · intro ch h
      rw [hrw] at h
      have hmem : ch ∈ (s.toList.take maxLen).filter (fun c => !(c = '<' || c = '>')) :=
        mem_trimChars h
      have hpred := List.of_mem_filter hmem
      simp only [Bool.not_eq_true', Bool.or_eq_false_iff, decide_eq_false_iff_not] at hpred
      exact hpred
    · intro ch h
      rw [hrw] at h
      exact trimChars_head _ ch h
    · intro ch h
      rw [hrw] at h
      exact trimChars_last _ ch h

/-- Claim C10: `sanitizeInput` is total; for every input and `maxLength`
the output string has length at most `maxLength`, contains no `<` and no
`>` character, has no leading or trailing whitespace, and `null`,
`undefined` or empty input yields the empty string. -/
theorem sanitizeInput_spec (input : Option String) (maxLength : Nat) :
    (sanitizeInput input maxLength).length ≤ maxLength ∧
    (∀ c, c ∈ (sanitizeInput input maxLength).toList → c ≠ '<' ∧ c ≠ '>') ∧
    (∀ c, (sanitizeInput input maxLength).toList.head? = some c →
        isJsWhitespace c = false) ∧
    (∀ c, (sanitizeInput input maxLength).toList.getLast? = some c →
        isJsWhitespace c = false) ∧
    (input = none ∨ input = some "" → sanitizeInput input maxLength = "") := by
  cases input with
  | none =>
    refine ⟨by simp [sanitizeInput], ?_, ?_, ?_, fun _ => rfl⟩ <;>
      intro c h <;> simp [sanitizeInput] at h
  | some s =>
    have hchars := sanitize_chars_ok s maxLength
    refine ⟨?_, hchars.1, hchars.2.1, hchars.2.2, ?_⟩
    · by_cases hs : s = ""
      · subst hs
        simp [sanitizeInput]
      · have hrw : sanitizeInput (some s) maxLength
            = jsTrim ⟨(s.toList.take maxLength).filter (fun c => !(c = '<' || c = '>'))⟩ := by
          simp [sanitizeInput, hs]
        rw [hrw]
        unfold jsTrim
        show (trimChars ((s.toList.take maxLength).filter
          (fun c => !(c = '<' || c = '>')))).length ≤ maxLength
        calc (trimChars ((s.toList.take maxLength).filter
              (fun c => !(c = '<' || c = '>')))).length
            ≤ ((s.toList.take maxLength).filter
              (fun c => !(c = '<' || c = '>'))).length := trimChars_length_le _
          _ ≤ (s.toList.take maxLength).length := List.length_filter_le _ _
          _ ≤ maxLength := by
              rw [List.length_take]
              exact Nat.min_le_left _ _
    · rintro (h | h)
      · cases h
      · rw [Option.some.inj h]
        rfl

/-- Witness for claim C10: on a concrete tagged string, the sanitizer
output is within bounds and strips angle brackets; missing input gives "". -/
theorem sanitizeInput_spec_witness :
    (sanitizeInput (some "  <b>hi there<") 1000).length ≤ 1000 ∧
    ('b' ≠ '<' ∧ 'b' ≠ '>') ∧
    sanitizeInput none 5 = "" :=
  ⟨(sanitizeInput_spec (some "  <b>hi there<") 1000).1,
    (sanitizeInput_spec (some "  <b>hi there<") 1000).2.1 'b' (by decide),
    (sanitizeInput_spec none 5).2.2.2.2 (Or.inl rfl)⟩

/-- Counterexample for claim C5: a comment containing the control character
U+0001 passes comment validation and survives `sanitizeInput` unchanged —
the sanitizer removes only the angle brackets `<` and `>`, so stored
comments are not sanitized of control characters. -/
theorem comment_control_char_counterexample :
    validateComment (some ⟨['o', 'k', Char.ofNat 1]⟩) 1000 = none ∧
    (sanitizeInput (some ⟨['o', 'k', Char.ofNat 1]⟩) 1000).toList.contains
      (Char.ofNat 1) = true := by
  constructor
  · decide
  · decide

/-- Claim C5 (amended): the comment field is optional on all actions; a
supplied comment is accepted only up to 1000 characters; and the sanitizer
applied before storage trims surrounding whitespace and strips the
angle-bracket characters `<` and `>` (not control characters generally). -/
theorem comment_field_rules (c : String) (maxLen : Nat) :
    validateComment none 1000 = none ∧
    (validateComment (some c) 1000 = none ↔ c.length ≤ 1000) ∧
    (∀ ch, ch ∈ (sanitizeInput (some c) maxLen).toList → ch ≠ '<' ∧ ch ≠ '>') ∧
    (∀ ch, (sanitizeInput (some c) maxLen).toList.head? = some ch →
        isJsWhitespace ch = false) ∧
    (∀ ch, (sanitizeInput (some c) maxLen).toList.getLast? = some ch →
        isJsWhitespace ch = false) := by
  have hchars := sanitize_chars_ok c maxLen
  refine ⟨rfl, ?_, hchars.1, hchars.2.1, hchars.2.2⟩
  by_cases hc : c = ""
  · subst hc
    simp [validateComment]
  · rcases Nat.lt_or_ge 1000 c.length with hlen | hlen
    · simp only [validateComment, if_neg hc, if_pos hlen]
      constructor
      · intro h
        cases h
      · intro h
        exact absurd hlen (by omega)
    · simp only [validateComment, if_neg hc, if_neg (by omega : ¬ 1000 < c.length)]
      simpa using hlen

/-- Witness for claim C5: a concrete short comment is accepted by
`validateComment`. -/
theorem comment_field_rules_witness :
    validateComment (some "looks fine to me") 1000 = none :=
  (comment_field_rules "looks fine to me" 0).2.1.mpr (by decide)

/-- Spec-side characterisation of an accepted id field: present, non-empty
after trimming, at most 255 characters, restricted charset. -/
def goodId (o : Option String) : Prop :=
  ∃ s, o = some s ∧ jsTrim s ≠ "" ∧ s.length ≤ 255 ∧ matchesIdPattern s = true

/-- Spec-side characterisation of an accepted score: absent, or a number in
[0, 1]. -/
def goodScore (o : Option JsNum) : Prop :=
  o = none ∨ ∃ q, o = some (.num q) ∧ 0 ≤ q ∧ q ≤ 1

/-- Spec-side characterisation of an accepted cost: absent, or a number
≥ 0. -/
def goodCost (o : Option JsNum) : Prop :=
  o = none ∨ ∃ q, o = some (.num q) ∧ 0 ≤ q

/-- Helper: acceptance condition of `validateFlowId` on a present string. -/
theorem validateFlowId_some_none_iff (s : String) :
    validateFlowId (some s) = none ↔
      (jsTrim s ≠ "" ∧ s.length ≤ 255 ∧ matchesIdPattern s = true) := by
  simp only [validateFlowId]
  by_cases h1 : s = "" ∨ jsTrim s = ""
  · rw [if_pos h1]
    constructor
    · intro h
      cases h
    · rintro ⟨ht, _, _⟩
      exfalso
      rcases h1 with h1 | h1
      · subst h1
        exact ht rfl
      · exact ht h1
  · rw [if_neg h1]
    push_neg at h1
    obtain ⟨hne, htrim⟩ := h1
    by_cases h2 : 255 < s.length
    · rw [if_pos h2]
      constructor
      · intro h
        cases h
      · rintro ⟨_, hlen, _⟩
        exact absurd h2 (by omega)
    · rw [if_neg h2]
      by_cases h3 : matchesIdPattern s = true
      · rw [if_neg (by simp [h3] : ¬ (!matchesIdPattern s) = true)]
        simp [htrim, h3]
        omega
      · rw [if_pos (by simp [Bool.not_eq_true] at h3 ⊢; exact h3 :
            (!matchesIdPattern s) = true)]
        constructor
        · intro h
          cases h
        · rintro ⟨_, _, hm⟩
          exact absurd hm h3

/-- Helper: acceptance condition of `validateNodeId` on a present string. -/
theorem validateNodeId_some_none_iff (s : String) :
    validateNodeId (some s) = none ↔
      (jsTrim s ≠ "" ∧ s.length ≤ 255 ∧ matchesIdPattern s = true) := by
  simp only [validateNodeId]
  by_cases h1 : s = "" ∨ jsTrim s = ""
  · rw [if_pos h1]
    constructor
    · intro h
      cases h
    · rintro ⟨ht, _, _⟩
      exfalso
      rcases h1 with h1 | h1
      · subst h1
        exact ht rfl
      · exact ht h1
  · rw [if_neg h1]
    push_neg at h1
    obtain ⟨hne, htrim⟩ := h1
    by_cases h2 : 255 < s.length
    · rw [if_pos h2]
      constructor
      · intro h
        cases h
      · rintro ⟨_, hlen, _⟩
        exact absurd h2 (by omega)
    · rw [if_neg h2]
      by_cases h3 : matchesIdPattern s = true
      · rw [if_neg (by simp [h3] : ¬ (!matchesIdPattern s) = true)]
        simp [htrim, h3]
        omega
      · rw [if_pos (by simp [Bool.not_eq_true] at h3 ⊢; exact h3 :
            (!matchesIdPattern s) = true)]
        constructor
        · intro h
          cases h
        · rintro ⟨_, _, hm⟩
          exact absurd hm h3

/-- Helper: `validateFlowId` accepts exactly the good ids. -/
theorem validateFlowId_none_iff (o : Option String) :
    validateFlowId o = none ↔ goodId o := by
  cases o with
  | none => simp [validateFlowId, goodId]
  | some s =>
    rw [validateFlowId_some_none_iff]
    constructor
    · rintro ⟨ht, hl, hm⟩
      exact ⟨s, rfl, ht, hl, hm⟩
    · rintro ⟨s', hs', ht, hl, hm⟩
      obtain rfl := Option.some.inj hs'
      exact ⟨ht, hl, hm⟩

/-- Helper: `validateNodeId` accepts exactly the good ids. -/
theorem validateNodeId_none_iff (o : Option String) :
    validateNodeId o = none ↔ goodId o := by
  cases o with
  | none => simp [validateNodeId, goodId]
  | some s =>
    rw [validateNodeId_some_none_iff]
    constructor
    · rintro ⟨ht, hl, hm⟩
      exact ⟨s, rfl, ht, hl, hm⟩
    · rintro ⟨s', hs', ht, hl, hm⟩
      obtain rfl := Option.some.inj hs'
      exact ⟨ht, hl, hm⟩

/-- Helper: `validateScore` accepts exactly the good scores. -/
theorem validateScore_none_iff (o : Option JsNum) (name : String) :
    validateScore o name = none ↔ goodScore o := by
  cases o with
  | none => simp [validateScore, goodScore]
  | some j =>
    cases j with
    | nan => simp [validateScore, goodScore]
    | num q =>
      simp only [validateScore, goodScore]
      by_cases h : q < 0 ∨ 1 < q
      · rw [if_pos h]
        constructor
        · intro hh
          cases hh
        · rintro (hnone | ⟨q', hq', h0, h1⟩)
          · cases hnone
          · have hq : q = q' := by
              have := Option.some.inj hq'
              exact JsNum.num.inj this
            subst hq
            rcases h with h | h
            · exact absurd h (not_lt.mpr h0)
            · exact absurd h (not_lt.mpr h1)
      · rw [if_neg h]
        push_neg at h
        constructor
        · intro _
          exact Or.inr ⟨q, rfl, h.1, h.2⟩
        · intro _
          rfl

/-- Helper: `validateCost` accepts exactly the good costs. -/
theorem validateCost_none_iff (o : Option JsNum) :
    validateCost o = none ↔ goodCost o := by
  cases o with
  | none => simp [validateCost, goodCost]
  | some j =>
    cases j with
    | nan => simp [validateCost, goodCost]
    | num q =>
      simp only [validateCost, goodCost]
      by_cases h : q < 0
      · rw [if_pos h]
        constructor
        · intro hh
          cases hh
        · rintro (hnone | ⟨q', hq', h0⟩)
          · cases hnone
          · have hq : q = q' := by
              have := Option.some.inj hq'
              exact JsNum.num.inj this
            subst hq
            exact absurd h (not_lt.mpr h0)
      · rw [if_neg h]
        push_neg at h
        constructor
        · intro _
          exact Or.inr ⟨q, rfl, h⟩
        · intro _
          rfl

/-- Helper: every flow id error message names the field. -/
theorem validateFlowId_msg (o : Option String) :
    ∀ m, validateFlowId o = some m → ∃ r, m = "Flow ID" ++ r := by
  intro m h
  cases o with
  | none =>
    simp only [validateFlowId] at h
    injection h with h
    exact ⟨" is required", by rw [← h]; decide⟩
  | some s =>
    simp only [validateFlowId] at h
    split_ifs at h with h1 h2 h3
    · injection h with h
      exact ⟨" is required", by rw [← h]; decide⟩
    · injection h with h
      exact ⟨" is too long (max 255 characters)", by rw [← h]; decide⟩
    · injection h with h
      exact ⟨" contains invalid characters", by rw [← h]; decide⟩

/-- Helper: every node id error message names the field. -/
theorem validateNodeId_msg (o : Option String) :
    ∀ m, validateNodeId o = some m → ∃ r, m = "Node ID" ++ r := by
  intro m h
  cases o with
  | none =>
    simp only [validateNodeId] at h
    injection h with h
    exact ⟨" is required", by rw [← h]; decide⟩
  | some s =>
    simp only [validateNodeId] at h
    split_ifs at h with h1 h2 h3
    · injection h with h
      exact ⟨" is required", by rw [← h]; decide⟩
    · injection h with h
      exact ⟨" is too long (max 255 characters)", by rw [← h]; decide⟩
    · injection h with h
      exact ⟨" contains invalid characters", by rw [← h]; decide⟩

/-- Helper: every score error message names the field. -/
theorem validateScore_msg (o : Option JsNum) (name : String) :
    ∀ m, validateScore o name = some m → ∃ r, m = name ++ r := by
  intro m h
  cases o with
  | none => cases h
  | some j =>
    cases j with
    | nan =>
      simp only [validateScore] at h
      injection h with h
      exact ⟨" must be a number", by rw [← h]⟩
    | num q =>
      simp only [validateScore] at h
      split_ifs at h with h1
      · injection h with h
        exact ⟨" must be between 0 and 1", by rw [← h]⟩

/-- Helper: every cost error message names the field. -/
theorem validateCost_msg (o : Option JsNum) :
    ∀ m, validateCost o = some m → ∃ r, m = "Cost" ++ r := by
  intro m h
  cases o with
  | none => cases h
  | some j =>
    cases j with
    | nan =>
      simp only [validateCost] at h
      injection h with h
      exact ⟨" must be a number", by rw [← h]; decide⟩
    | num q =>
      simp only [validateCost] at h
      split_ifs at h with h1
      · injection h with h
        exact ⟨" cannot be negative", by rw [← h]; decide⟩

/-- Claim C4: gate-creation form validation accepts a request exactly when
`flow_id` and `node_id` are present, non-empty after trimming, at most 255
characters and drawn from the restricted charset (word characters, hyphen,
dot); `risk_score` and `confidence_score`, when present, are numbers in
[0, 1]; and `estimated_cost`, when present, is a number ≥ 0 — and for every
violating field a validation error message naming that field is produced. -/
theorem validateDecisionForm_spec (form : DecisionForm) :
    ((validateDecisionForm form).flow_id = none ↔ goodId form.flow_id) ∧
    ((validateDecisionForm form).node_id = none ↔ goodId form.node_id) ∧
    ((validateDecisionForm form).risk_score = none ↔ goodScore form.risk_score) ∧
    ((validateDecisionForm form).confidence_score = none ↔
        goodScore form.confidence_score) ∧
    ((validateDecisionForm form).estimated_cost = none ↔
        goodCost form.estimated_cost) ∧
    ((validateDecisionForm form).clean = true ↔
      (goodId form.flow_id ∧ goodId form.node_id ∧ goodScore form.risk_score ∧
        goodScore form.confidence_score ∧ goodCost form.estimated_cost)) ∧
    (∀ m, (validateDecisionForm form).flow_id = some m →
        ∃ r, m = "Flow ID" ++ r) ∧
    (∀ m, (validateDecisionForm form).node_id = some m →
        ∃ r, m = "Node ID" ++ r) ∧
    (∀ m, (validateDecisionForm form).risk_score = some m →
        ∃ r, m = "Risk score" ++ r) ∧
    (∀ m, (validateDecisionForm form).confidence_score = some m →
        ∃ r, m = "Confidence score" ++ r) ∧
    (∀ m, (validateDecisionForm form).estimated_cost = some m →
        ∃ r, m = "Cost" ++ r) := by
  have hf := validateFlowId_none_iff form.flow_id
  have hn := validateNodeId_none_iff form.node_id
  have hr := validateScore_none_iff form.risk_score "Risk score"
  have hc := validateScore_none_iff form.confidence_score "Confidence score"
  have hco := validateCost_none_iff form.estimated_cost
  refine ⟨hf, hn, hr, hc, hco, ?_,
    validateFlowId_msg form.flow_id, validateNodeId_msg form.node_id,
    validateScore_msg form.risk_score "Risk score",
    validateScore_msg form.confidence_score "Confidence score",
    validateCost_msg form.estimated_cost⟩
  simp only [FormErrors.clean, validateDecisionForm, Bool.and_eq_true,
    Option.isNone_iff_eq_none]
  rw [hf, hn, hr, hc, hco]
  tauto

/-- A concrete well-formed decision form for the witness. -/
def formW : DecisionForm :=
  ⟨some "sample-flow", some "checkpoint-1", some (.num 1), none, some (.num 0)⟩

/-- Witness for claim C4: the concrete well-formed form passes validation. -/
theorem validateDecisionForm_spec_witness :
    (validateDecisionForm formW).clean = true :=
  (validateDecisionForm_spec formW).2.2.2.2.2.1.mpr
    ⟨⟨"sample-flow", rfl, by decide, by decide, by decide⟩,
      ⟨"checkpoint-1", rfl, by decide, by decide, by decide⟩,
      Or.inr ⟨1, rfl, by decide, by decide⟩,
      Or.inl rfl,
      Or.inr ⟨0, rfl, by decide⟩⟩

/-! ## API client error handling (from `src/frontend/src/api.js`) -/

/-- The fields of a parsed JSON error body inspected by `userMessage`. -/
structure ApiBody where
  detail : Option String
  message : Option String
deriving DecidableEq, Repr

/-- The `ApiError` thrown for any rejected request: status (the HTTP
category), status text, and the parsed body when one exists. -/
structure ApiError where
  status : Nat
  statusText : String
  body : Option ApiBody
deriving DecidableEq, Repr

/-- JS truthiness of an optional string: missing and empty are falsy. -/
def truthyStr : Option String → Option String
  | none => none
  | some s => if s = "" then none else some s

/-- `isUnauthorized` accessor. -/
def ApiError.isUnauthorized (e : ApiError) : Bool := e.status == 401

/-- `isForbidden` accessor. -/
def ApiError.isForbidden (e : ApiError) : Bool := e.status == 403

/-- `isNotFound` accessor. -/
def ApiError.isNotFound (e : ApiError) : Bool := e.status == 404

/-- `isRateLimited` accessor. -/
def ApiError.isRateLimited (e : ApiError) : Bool := e.status == 429

/-- `isServerError` accessor. -/
def ApiError.isServerError (e : ApiError) : Bool := decide (500 ≤ e.status)

/-- The apostrophe character, used in one of the canned messages. -/
def apostrophe : String := ⟨[Char.ofNat 39]⟩

/-- The canned message for a 403 response. -/
def forbiddenMsg : String :=
  "You don" ++ apostrophe ++ "t have permission to perform this action."

/-- `ApiError.userMessage` from api.js: canned messages for the known
status categories, then the body's `detail` or `message` when truthy, then
a generic fallback. -/
def ApiError.userMessage (e : ApiError) : String :=
  if e.isUnauthorized then "Please log in to continue."
  else if e.isForbidden then forbiddenMsg
  else if e.isNotFound then "The requested resource was not found."
  else if e.isRateLimited then "Too many requests. Please try again later."
  else if e.isServerError then "Server error. Please try again later."
  else
    match truthyStr (e.body.bind (fun b => b.detail)) with
    | some d => d
    | none =>
      match truthyStr (e.body.bind (fun b => b.message)) with
      | some m => m
      | none => "An unexpected error occurred."

/-- The abstract outcome of the underlying `fetch` call: a response with
status and parsed body, an abort (the timeout fired and the abort
controller cancelled the call), or a network error. -/
inductive FetchOutcome where
  | response (status : Nat) (statusText : String) (body : Option ApiBody)
  | abortError
  | networkError (msg : String)
deriving DecidableEq, Repr

/-- `res.ok`: status in the 2xx range. -/
def statusOk (status : Nat) : Bool := decide (200 ≤ status) && decide (status < 300)

/-- The effective deadline `options.timeout || 30000` (default 30000 ms;
a zero timeout is falsy in JS and also falls back to the default). -/
def effectiveTimeout (t : Option Nat) : Nat :=
  match t with
  | none => 30000
  | some v => if v = 0 then 30000 else v

/-- `request` from api.js as a function of the fetch outcome: ok responses
return the body; non-ok responses throw `ApiError(status, statusText,
body)`; an abort throws `ApiError(408, "Request Timeout")` with detail
"Request timed out"; other failures throw `ApiError(0, "Network Error")`. -/
def requestResult (outcome : FetchOutcome) : Except ApiError (Option ApiBody) :=
  match outcome with
  | .response status statusText body =>
    if statusOk status then .ok body
    else .error ⟨status, statusText, body⟩
  | .abortError =>
    .error ⟨408, "Request Timeout", some ⟨some "Request timed out", none⟩⟩
  | .networkError msg => .error ⟨0, "Network Error", some ⟨some msg, none⟩⟩

/-- Helper: `truthyStr` only returns non-empty strings. -/
theorem truthyStr_some {o : Option String} {s : String}
    (h : truthyStr o = some s) : s ≠ "" := by
  cases o with
  | none => cases h
  | some t =>
    simp only [truthyStr] at h
    by_cases ht : t = ""
    · rw [if_pos ht] at h
      cases h
    · rw [if_neg ht] at h
      injection h with h
      subst h
      exact ht

/-- Claim C6: every rejected (non-ok) response surfaces as a structured
`ApiError` carrying the status category, and `userMessage` yields a
non-empty human-readable string for every status value and body. -/
theorem apiError_structured (status : Nat) (statusText : String)
    (body : Option ApiBody) :
    (∀ e : ApiError, e.userMessage ≠ "") ∧
    (statusOk status = false →
      requestResult (.response status statusText body)
        = .error ⟨status, statusText, body⟩) := by
  constructor
  · intro e
    unfold ApiError.userMessage
    split_ifs
    · decide
    · decide
    · decide
    · decide
    · decide
    · cases hd : truthyStr (e.body.bind (fun b => b.detail)) with
      | some d =>
        simpa [hd] using truthyStr_some hd
      | none =>
        cases hm : truthyStr (e.body.bind (fun b => b.message)) with
        | some m =>
          simpa [hd, hm] using truthyStr_some hm
        | none =>
          simp [hd, hm]
  · intro h
    simp [requestResult, h]

/-- Witness for claim C6: a concrete 404 response throws an ApiError with
status 404 whose user message is non-empty. -/
theorem apiError_structured_witness :
    requestResult (.response 404 "Not Found" none)
      = .error ⟨404, "Not Found", none⟩ ∧
    (ApiError.mk 404 "Not Found" none).userMessage ≠ "" :=
  ⟨(apiError_structured 404 "Not Found" none).2 (by decide),
    (apiError_structured 404 "Not Found" none).1 ⟨404, "Not Found", none⟩⟩

/-- Claim C7: request handling is bounded by a timeout defaulting to
30000 ms (a missing or zero `options.timeout` falls back to the default),
and a call abandoned by the abort controller past the deadline surfaces to
the caller as an ApiError with status 408 and detail "Request timed out"
rather than a success. -/
theorem request_timeout_spec (t : Nat) :
    effectiveTimeout none = 30000 ∧
    effectiveTimeout (some 0) = 30000 ∧
    requestResult .abortError
      = .error ⟨408, "Request Timeout", some ⟨some "Request timed out", none⟩⟩ ∧
    (∀ b, requestResult .abortError ≠ .ok b) ∧
    (0 < t → effectiveTimeout (some t) = t) := by
  refine ⟨rfl, rfl, rfl, ?_, ?_⟩
  · intro b h
    cases h
  · intro ht
    simp [effectiveTimeout, Nat.pos_iff_ne_zero.mp ht]

/-- Witness for claim C7: a concrete non-default timeout is used as is. -/
theorem request_timeout_spec_witness :
    effectiveTimeout (some 5000) = 5000 :=
  (request_timeout_spec 5000).2.2.2.2 (by decide)

/-! ## i18n lookup (from `src/unnamed/part_002`) -/

/-- A key-value bundle as loaded from a locale JSON file.  The bundle
contents are data files outside the source tree, so the lookup logic is
parameterised over them. -/
abbrev Bundle := List (String × String)

/-- `table[key]` lookup. -/
def Bundle.lookup (b : Bundle) (k : String) : Option String :=
  (List.find? (fun p => p.1 == k) b).map (fun p => p.2)

/-- The supported bundles `{ en, "pt-BR": ptBR, es }`. -/
structure Bundles where
  en : Bundle
  ptBR : Bundle
  es : Bundle

/-- `bundles[lang] || bundles.en`: unsupported codes fall back to English. -/
def bundleFor (bs : Bundles) (lang : String) : Bundle :=
  if lang = "en" then bs.en
  else if lang = "pt-BR" then bs.ptBR
  else if lang = "es" then bs.es
  else bs.en

/-- `getTranslation` from the i18n module: `table[key] || key` over the
bundle resolved for the language. -/
def getTranslation (bs : Bundles) (lang key : String) : String :=
  match truthyStr (Bundle.lookup (bundleFor bs lang) key) with
  | some v => v
  | none => key

/-- Claim C8: `getTranslation` is total (a total Lean function by
construction, with no failure path): an unsupported language code resolves
against the English bundle, and a key missing from the resolved bundle is
returned unchanged. -/
theorem getTranslation_total (bs : Bundles) (lang key : String) :
    (lang ≠ "en" → lang ≠ "pt-BR" → lang ≠ "es" →
      getTranslation bs lang key = getTranslation bs "en" key) ∧
    (Bundle.lookup (bundleFor bs lang) key = none →
      getTranslation bs lang key = key) := by
  constructor
  · intro h1 h2 h3
    unfold getTranslation bundleFor
    rw [if_neg h1, if_neg h2, if_neg h3, if_pos rfl]
  · intro h
    unfold getTranslation
    rw [h]
    rfl

/-- Concrete bundles for the i18n witness. -/
def bsW : Bundles :=
  ⟨[("decision.approve", "Approve")], [("decision.approve", "Aprovar")], []⟩

/-- Witness for claim C8: an unsupported language falls back to English and
a missing key is returned unchanged. -/
theorem getTranslation_total_witness :
    getTranslation bsW "fr" "decision.approve"
      = getTranslation bsW "en" "decision.approve" ∧
    getTranslation bsW "es" "status.unknown" = "status.unknown" :=
  ⟨(getTranslation_total bsW "fr" "decision.approve").1
      (by decide) (by decide) (by decide),
    (getTranslation_total bsW "es" "status.unknown").2 (by rfl)⟩

/-! ## Decisions pagination hook (from `src/unnamed/part_000`) -/

/-- The pagination-relevant state of the `useDecisions` hook. -/
structure PageState where
  offset : Int
  limit : Int
  total : Int
deriving DecidableEq, Repr

/-- The state operations of the hook: `nextPage`, `prevPage`,
`changeStatus` and `refresh` (both reset the offset to 0), and the
completion of a fetch updating `total` from the response. -/
inductive PageOp where
  | nextPage
  | prevPage
  | changeStatus
  | refresh
  | fetched (total : Int)
deriving DecidableEq, Repr

/-- One step of the hook state, from `useDecisions`:
`nextPage` advances only while `offset + limit < total`; `prevPage` moves
back to `max(0, offset - limit)` only while `offset > 0`. -/
def stepPage (s : PageState) : PageOp → PageState
  | .nextPage =>
    if s.offset + s.limit < s.total then { s with offset := s.offset + s.limit }
    else s
  | .prevPage =>
    if 0 < s.offset then { s with offset := max 0 (s.offset - s.limit) }
    else s
  | .changeStatus => { s with offset := 0 }
  | .refresh => { s with offset := 0 }
  | .fetched t => { s with total := t }

/-- Run a sequence of hook operations. -/
def runPage (s : PageState) (ops : List PageOp) : PageState :=
  ops.foldl stepPage s

/-- Helper: every operation preserves a non-negative offset (given a
non-negative page size) and never changes the limit. -/
theorem runPage_invariant (ops : List PageOp) :
    ∀ s : PageState, 0 ≤ s.limit → 0 ≤ s.offset →
      0 ≤ (runPage s ops).offset ∧ (runPage s ops).limit = s.limit := by
  induction ops with
  | nil =>
    intro s hl ho
    exact ⟨ho, rfl⟩
  | cons op rest ih =>
    intro s hl ho
    have hstep : 0 ≤ (stepPage s op).offset ∧ (stepPage s op).limit = s.limit := by
      cases op with
      | nextPage =>
        by_cases h : s.offset + s.limit < s.total
        · simp only [stepPage, if_pos h]
          exact ⟨by omega, trivial⟩
        · simp only [stepPage, if_neg h]
          exact ⟨ho, trivial⟩
      | prevPage =>
        by_cases h : 0 < s.offset
        · simp only [stepPage, if_pos h]
          exact ⟨le_max_left 0 _, trivial⟩
        · simp only [stepPage, if_neg h]
          exact ⟨ho, trivial⟩
      | changeStatus => exact ⟨le_refl 0, rfl⟩
      | refresh => exact ⟨le_refl 0, rfl⟩
      | fetched t => exact ⟨ho, rfl⟩
    have hrest := ih (stepPage s op) (by rw [hstep.2]; exact hl) hstep.1
    constructor
    · exact hrest.1
    · rw [show runPage s (op :: rest) = runPage (stepPage s op) rest from rfl,
        hrest.2, hstep.2]

/-- Claim C9: starting from offset 0, after any sequence of `nextPage`,
`prevPage`, `changeStatus` and `refresh` calls (with fetches updating the
total), the offset stays ≥ 0; and `nextPage` leaves the state unchanged
whenever `offset + limit ≥ total`, so the window never advances past the
reported total. -/
theorem useDecisions_offset_invariant (ops : List PageOp) (l t : Int)
    (hl : 0 ≤ l) :
    0 ≤ (runPage ⟨0, l, t⟩ ops).offset ∧
    (∀ s : PageState, s.total ≤ s.offset + s.limit → stepPage s .nextPage = s) := by
  constructor
  · exact (runPage_invariant ops ⟨0, l, t⟩ hl le_rfl).1
  · intro s hs
    have h : ¬ (s.offset + s.limit < s.total) := not_lt.mpr hs
    simp only [stepPage, if_neg h]

/-- Witness for claim C9: a concrete operation sequence with page size 20
and total 50 keeps the offset non-negative. -/
theorem useDecisions_offset_invariant_witness :
    0 ≤ (runPage ⟨0, 20, 50⟩
      [.nextPage, .nextPage, .prevPage, .changeStatus, .nextPage,
        .fetched 10, .prevPage]).offset :=
  (useDecisions_offset_invariant
    [.nextPage, .nextPage, .prevPage, .changeStatus, .nextPage,
      .fetched 10, .prevPage] 20 50 (by decide)).1

end DCP
